import Mathlib

/-!
A shallow embedding of `water_temp.go`.

Bytes are natural numbers (`t` is 116, `=` is 61, `0`..`9` are 48..57, `Y E S` are
89 69 83, `N O` are 78 79, `,` is 44, `-` is 45, newline is 10).  A byte slice is a
`List Nat`.  The two regular expressions of `main` are values of `Regexp`, run by a
backtracking matcher with the leftmost-first rule of Go's `regexp` package.
A `float64` is the rational number it denotes, and every `float64` operation is the
exact operation followed by a rounding to the nearest double, a tie to the even one.
-/

namespace WaterTemp

/-! ## The regular expressions of `main` -/

/-- The fragment of Go's regexp syntax that `main` uses. -/
inductive Regexp where
  /-- a literal byte string -/
  | literal : List Nat → Regexp
  /-- a byte range, `[lo-hi]`; `\d` is `[0-9]` -/
  | charClass : Nat → Nat → Regexp
  /-- The anchor `$` without the multi-line flag: the end of the text -/
  | endText : Regexp
  /-- Concatenation, `r₁r₂` -/
  | concat : Regexp → Regexp → Regexp
  /-- Alternation, `r₁|r₂`, the left branch preferred -/
  | alternate : Regexp → Regexp → Regexp
  /-- Bounded repetition with a minimum and a maximum, greedy -/
  | rep : Regexp → Nat → Nat → Regexp
  /-- A capturing group, `(r)` -/
  | capture : Regexp → Regexp

/-- One way of matching at a position: the number of bytes consumed and the text of
the capturing groups. -/
abbrev Thread := Nat × List (List Nat)

/-- Continue every thread of `ts` (found on `s`) with `next`, keeping the order. -/
def andThen (s : List Nat) (ts : List Thread) (next : List Nat → List Thread) :
    List Thread :=
  ts.flatMap fun t => (next (s.drop t.1)).map fun u => (t.1 + u.1, t.2 ++ u.2)

/-- Greedy bounded repetition of `step`: try one more iteration first, stop second. -/
def matchRep (step : List Nat → List Thread) : Nat → Nat → List Nat → List Thread
  | lo, 0, _ => if lo = 0 then [(0, [])] else []
  | lo, hi + 1, s =>
    andThen s (step s) (matchRep step (lo - 1) hi)
      ++ (if lo = 0 then [(0, [])] else [])

/-- All the ways `r` matches a prefix of `s`, in the order a backtracking search
finds them. -/
def matchRe : Regexp → List Nat → List Thread
  | .literal l, s => if l.isPrefixOf s then [(l.length, [])] else []
  | .charClass lo hi, s =>
    match s with
    | c :: _ => if lo ≤ c ∧ c ≤ hi then [(1, [])] else []
    | [] => []
  | .endText, s => if s = [] then [(0, [])] else []
  | .concat r₁ r₂, s => andThen s (matchRe r₁ s) (fun s' => matchRe r₂ s')
  | .alternate r₁ r₂, s => matchRe r₁ s ++ matchRe r₂ s
  | .rep r lo hi, s => matchRep (fun s' => matchRe r s') lo hi s
  | .capture r, s => (matchRe r s).map fun t => (t.1, s.take t.1 :: t.2)

/-- The preferred match of `r` starting exactly at the head of `s`: the matched text
followed by the text of the groups. -/
def matchHere (r : Regexp) (s : List Nat) : Option (List (List Nat)) :=
  (matchRe r s).head?.map fun t => s.take t.1 :: t.2

/-- The method `(*Regexp).FindSubmatch`: the leftmost match, and at that position the preferred
one; `none` is Go's nil result. -/
def FindSubmatch (r : Regexp) : List Nat → Option (List (List Nat))
  | [] => matchHere r []
  | c :: s =>
    match matchHere r (c :: s) with
    | some m => some m
    | none => FindSubmatch r s

/-- The method `(*Regexp).Find`: the text of the leftmost match; a nil result is the empty
slice, which is all `main` can see of it through `string(good)`. -/
def Find (r : Regexp) (data : List Nat) : List Nat :=
  match FindSubmatch r data with
  | some (m :: _) => m
  | _ => []

/-- The pattern `YES|NO$` of `main`. -/
def isValid : Regexp :=
  .alternate (.literal [89, 69, 83]) (.concat (.literal [78, 79]) .endText)

/-- The pattern `t=(\d{4,5})` of `main`. -/
def rawDataRe : Regexp :=
  .concat (.literal [116, 61]) (.capture (.rep (.charClass 48 57) 4 5))

/-! ## Unit conversion -/

/-- Rounds to the nearest integer, a tie to the even one. -/
def roundHalfEven (y : ℚ) : ℤ :=
  if y - ⌊y⌋ < 1 / 2 then ⌊y⌋
  else if 1 / 2 < y - ⌊y⌋ then ⌊y⌋ + 1
  else if ⌊y⌋ % 2 = 0 then ⌊y⌋ else ⌊y⌋ + 1

/-- The unit in the last place of the doubles in the binade of `q`: a double has 53
significant bits. -/
def ulp (q : ℚ) : ℚ :=
  (2 : ℚ) ^ (Int.log 2 |q| - 52)

/-- The `float64` nearest to `q`, a tie to the even one.  The exponent is not bounded:
the values of this program are far from the overflow and the subnormal range. -/
def toFloat64 (q : ℚ) : ℚ :=
  roundHalfEven (q / ulp q) * ulp q

/-- The constant `probeMultiplier`. -/
def probeMultiplier : ℚ := 1000

/-- The function `cToF`: `c*9/5 + 32.9` in `float64`, the product, the quotient and
the sum each rounded, the constant `32.9` the double nearest to it. -/
def cToF (c : ℚ) : ℚ :=
  toFloat64 (toFloat64 (toFloat64 (c * 9) / 5) + toFloat64 (329 / 10))

/-- The function `rawProbeDataToFarenheit`: `float64(raw) / probeMultiplier` in
`float64`, then `cToF`. -/
def rawProbeDataToFarenheit (raw : Int) : ℚ :=
  let celcius := toFloat64 (toFloat64 raw / toFloat64 probeMultiplier)
  cToF celcius

/-! ## Decimal text: `%d` and `strconv.Atoi` -/

/-- The decimal digits of `n`, most significant first, as bytes; `fuel` bounds the
number of digits. -/
def fmtNatAux : Nat → Nat → List Nat → List Nat
  | 0, _, acc => acc
  | fuel + 1, n, acc =>
    if n < 10 then (48 + n) :: acc else fmtNatAux fuel (n / 10) ((48 + n % 10) :: acc)

/-- The decimal text of a natural number. -/
def fmtNat (n : Nat) : List Nat :=
  fmtNatAux (n + 1) n []

/-- The verb `%d` of `fmt.Sprintf` on an integer. -/
def fmtInt (v : Int) : List Nat :=
  if v < 0 then 45 :: fmtNat v.natAbs else fmtNat v.natAbs

/-- The loop of `strconv.Atoi`: `n = n*10 + int(ch - '0')`, a syntax error at a byte
that is not a digit. -/
def parseDigits : List Nat → Nat → Option Nat
  | [], n => some n
  | ch :: s, n => if 48 ≤ ch ∧ ch ≤ 57 then parseDigits s (n * 10 + (ch - 48)) else none

/-- A decimal integer with an optional sign, of any size; a syntax error is `none`. -/
def parseInt (s : List Nat) : Option Int :=
  match s with
  | [] => none
  | 45 :: s' => if s' = [] then none else (parseDigits s' 0).map fun n => -(n : Int)
  | 43 :: s' => if s' = [] then none else (parseDigits s' 0).map fun n => (n : Int)
  | _ => (parseDigits s 0).map fun n => (n : Int)

/-- The size of Go's `int` on the platform. -/
inductive IntSize where
  | bits32
  | bits64
  deriving DecidableEq

/-- The number of bits of an `int`. -/
def IntSize.bits : IntSize → Nat
  | .bits32 => 32
  | .bits64 => 64

/-- The function `strconv.Atoi`: a syntax error or a value out of the range of `int` is `none`. -/
def Atoi (sz : IntSize) (s : List Nat) : Option Int :=
  match parseInt s with
  | none => none
  | some v => if -(2 ^ (sz.bits - 1) : Int) ≤ v ∧ v < 2 ^ (sz.bits - 1) then some v else none

/-! ## The log -/

/-- The struct `reading`. -/
structure reading where
  time : Int
  value : Int
  deriving DecidableEq

/-- The method `reading.String`: the time, a comma, the value, a newline, both
integers with the verb `%d`. -/
def reading.String (r : reading) : List Nat :=
  fmtInt r.time ++ [44] ++ fmtInt r.value ++ [10]

/-- What the one `Read` of the probe file gives. -/
inductive Probe where
  /-- The call of `os.Open` fails -/
  | openFails
  /-- The call of `f.Read` returns an error -/
  | readFails
  /-- The call of `f.Read` delivers these bytes (none at all is `io.EOF`) -/
  | bytes (delivered : List Nat)
  deriving DecidableEq

/-- The step of `storeReading` that failed. -/
inductive StoreErr where
  | open
  | write
  | close
  deriving DecidableEq

/-- Everything outside the program that one run of `main` depends on. -/
structure World where
  /-- the size of `int` -/
  intSize : IntSize
  /-- the probe file -/
  probe : Probe
  /-- The value of `time.Now().Unix()` -/
  now : Int
  /-- the content of the log file `dbFile` before the run -/
  log : List Nat
  /-- The call `os.OpenFile(dbFile, O_APPEND|O_WRONLY)` succeeds -/
  logOpen : Bool
  /-- With `none`, `f.Write` writes the whole line; with `some n`, it fails after
  `n` bytes of the line -/
  logWrite : Option Nat
  /-- The call of `f.Close` succeeds -/
  logClose : Bool

/-- The function `storeReading`: the error returned, if any, and the content of the log after
the call. -/
def storeReading (w : World) (value : Int) : Option StoreErr × List Nat :=
  let r : reading := { time := w.now, value := value }
  if w.logOpen = false then (some .open, w.log)
  else
    match w.logWrite with
    | some n => (some .write, w.log ++ r.String.take n)
    | none =>
      if w.logClose = false then (some .close, w.log ++ r.String)
      else (none, w.log ++ r.String)

/-! ## `main` -/

/-- The reason of a `log.Fatal`. -/
inductive Fatal where
  /-- could not open the probe file -/
  | couldNotOpen
  /-- could not read the probe file -/
  | couldNotRead
  /-- data is not good -/
  | notGood
  /-- rawData cannot be converted into number -/
  | notNumber
  /-- could not store rawNum -/
  | couldNotStore (e : StoreErr)
  deriving DecidableEq

/-- How a run ends. -/
inductive Exit where
  | ok
  | fatal (why : Fatal)
  deriving DecidableEq

/-- What one run of `main` leaves behind. -/
structure Outcome where
  /-- how the process ends -/
  exit : Exit
  /-- the content of the log file after the run -/
  log : List Nat
  /-- the values printed by `fmt.Println` -/
  stdout : List ℚ
  /-- the arguments of the calls of `storeReading`, in order -/
  calls : List Int
  deriving DecidableEq

/-- The slice `data := make([]byte, 100)` filled by one `f.Read(data)`: the buffer `main`
searches, or the fatal error of the open or the read. -/
def readProbe (w : World) : Except Fatal (List Nat) :=
  match w.probe with
  | .openFails => .error .couldNotOpen
  | .readFails => .error .couldNotRead
  | .bytes [] => .error .couldNotRead
  | .bytes b => .ok (b.take 100 ++ List.replicate (100 - (b.take 100).length) 0)

/-- Lines 59 to 92 of `main`: everything after the read, on the buffer `data`. -/
def mainOn (w : World) (data : List Nat) : Outcome :=
  let good := Find isValid data
  if good = [78, 79] then
    { exit := .fatal .notGood, log := w.log, stdout := [], calls := [] }
  else if good = [89, 69, 83] then
    let «matches» := (FindSubmatch rawDataRe data).getD []
    if «matches».length = 2 then
      let rawData := «matches».getD 1 []
      match Atoi w.intSize rawData with
      | none => { exit := .fatal .notNumber, log := w.log, stdout := [], calls := [] }
      | some rawNum =>
        match storeReading w rawNum with
        | (some e, log') =>
          { exit := .fatal (.couldNotStore e), log := log', stdout := [], calls := [rawNum] }
        | (none, log') =>
          { exit := .ok, log := log', stdout := [rawProbeDataToFarenheit rawNum],
            calls := [rawNum] }
    else { exit := .ok, log := w.log, stdout := [], calls := [] }
  else { exit := .ok, log := w.log, stdout := [], calls := [] }

/-- One run of `main`. -/
def main (w : World) : Outcome :=
  match readProbe w with
  | .error e => { exit := .fatal e, log := w.log, stdout := [], calls := [] }
  | .ok data => mainOn w data

/-! ## Reading the log back, sample inputs, and measures for the proofs -/

/-- The integer value of a run of ASCII digits. -/
def decimalValue (N : List Nat) : Nat :=
  N.foldl (fun n ch => n * 10 + (ch - 48)) 0

/-- The number of ASCII digits at the head of `s`. -/
def digitsAhead : List Nat → Nat
  | [] => 0
  | c :: s => if 48 ≤ c ∧ c ≤ 57 then digitsAhead s + 1 else 0

/-- The threads of a greedy repetition of `\d` when `k` digits are ahead. -/
def repThreads : Nat → Nat → Nat → List Thread
  | lo, 0, _ => if lo = 0 then [(0, [])] else []
  | lo, _ + 1, 0 => if lo = 0 then [(0, [])] else []
  | lo, hi + 1, k + 1 =>
    (repThreads (lo - 1) hi k).map (fun u => (1 + u.1, u.2))
      ++ (if lo = 0 then [(0, [])] else [])

/-- Reads a log line back: drop the final newline, split at the first comma, read
the two decimal integers. -/
def parseLine (line : List Nat) : Option (Int × Int) :=
  if line.getLast? = some 10 then
    let body := line.dropLast
    match body.dropWhile (fun c => c != 44) with
    | _ :: v =>
      match parseInt (body.takeWhile (fun c => c != 44)), parseInt v with
      | some a, some b => some (a, b)
      | _, _ => none
    | [] => none
  else none

/-- A byte of a hex dump line of the probe file: a space, `:`, `=`, a digit, `a` to
`f`, or the `r` of `crc`. -/
def dumpByte (c : Nat) : Bool :=
  c == 32 || c == 58 || c == 61 || (48 ≤ c && c ≤ 57) || (97 ≤ c && c ≤ 102) || c == 114

/-- The text `a2 00 4b 46 7f ff 0e 10 e5 : crc=e5 ` of the comment in the source. -/
def dumpCrc : List Nat :=
  [97, 50, 32, 48, 48, 32, 52, 98, 32, 52, 54, 32, 55, 102, 32, 102, 102, 32, 48, 101, 32,
    49, 48, 32, 101, 53, 32, 58, 32, 99, 114, 99, 61, 101, 53, 32]

/-- The text `a2 00 4b 46 7f ff 0e 10 e5 ` of the comment in the source. -/
def dumpLine : List Nat :=
  [97, 50, 32, 48, 48, 32, 52, 98, 32, 52, 54, 32, 55, 102, 32, 102, 102, 32, 48, 101, 32,
    49, 48, 32, 101, 53, 32]

/-- The two lines of the probe file: the dump with the marker, the dump with `t=`
and the text `t` of the temperature. -/
def sensorText (marker t : List Nat) : List Nat :=
  dumpCrc ++ marker ++ [10] ++ dumpLine ++ [116, 61] ++ t ++ [10]

/-- A 32-bit machine at time 1611012127 whose probe file holds `text`, with an empty
log that can be opened, written and closed. -/
def sampleWorld (text : List Nat) : World :=
  { intSize := .bits32, probe := .bytes text, now := 1611012127, log := [],
    logOpen := true, logWrite := none, logClose := true }

/-- The outcome of a run that stores nothing and prints nothing. -/
def quiet (w : World) (e : Exit) : Outcome :=
  { exit := e, log := w.log, stdout := [], calls := [] }

/-! ## The validity pattern -/

theorem matchRe_isValid (s : List Nat) :
    matchRe isValid s =
      (if [89, 69, 83] <+: s then [(3, [])] else [])
        ++ (if s = [78, 79] then [(2, [])] else []) := by
  have h2 : matchRe (.concat (.literal [78, 79]) .endText) s
      = if s = [78, 79] then [(2, [])] else [] := by
    by_cases h : [78, 79] <+: s
    · obtain ⟨t, rfl⟩ := h
      cases t <;> simp [matchRe, andThen]
    · have h' : s ≠ [78, 79] := fun e => h (e ▸ List.prefix_refl _)
      simp [matchRe, andThen, h, h']
  rw [isValid, matchRe, h2]
  simp [matchRe]

theorem matchHere_isValid (s : List Nat) :
    matchHere isValid s =
      if [89, 69, 83] <+: s then some [[89, 69, 83]]
      else if s = [78, 79] then some [[78, 79]] else none := by
  rw [matchHere, matchRe_isValid]
  by_cases h : [89, 69, 83] <+: s
  · obtain ⟨t, rfl⟩ := h
    simp
  · by_cases h' : s = [78, 79]
    · subst h'
      simp
    · simp [h, h']

theorem findSubmatch_isValid (data : List Nat) :
    FindSubmatch isValid data =
      if [89, 69, 83] <:+: data then some [[89, 69, 83]]
      else if [78, 79] <:+ data then some [[78, 79]] else none := by
  induction data with
  | nil => simp [FindSubmatch, matchHere_isValid]
  | cons c s ih =>
    rw [FindSubmatch, matchHere_isValid]
    by_cases h : [89, 69, 83] <+: c :: s
    · simp [h, h.isInfix]
    · by_cases h' : c :: s = [78, 79]
      · simp [h']
        decide
      · simp only [h, h', if_false, ih]
        have e1 : [89, 69, 83] <:+: c :: s ↔ [89, 69, 83] <:+: s := by
          rw [List.infix_cons_iff]
          simp [h]
        have e2 : [78, 79] <:+ c :: s ↔ [78, 79] <:+ s := by
          rw [List.suffix_cons_iff]
          simp [Ne.symm h']
        simp [e1, e2]

/-- The validity search of `main` in closed form. -/
theorem find_isValid (data : List Nat) :
    Find isValid data =
      if [89, 69, 83] <:+: data then [89, 69, 83]
      else if [78, 79] <:+ data then [78, 79] else [] := by
  rw [Find, findSubmatch_isValid]
  split_ifs <;> rfl

/-! ## The extraction pattern -/

theorem matchRep_digit_zero (lo hi : Nat) (s : List Nat) (h : digitsAhead s = 0) :
    matchRep (fun s' => matchRe (.charClass 48 57) s') lo hi s
      = if lo = 0 then [(0, [])] else [] := by
  cases hi with
  | zero => simp [matchRep]
  | succ hi =>
    cases s with
    | nil => simp [matchRep, matchRe, andThen]
    | cons c t =>
      have hc : ¬(48 ≤ c ∧ c ≤ 57) := by
        intro hc
        simp [digitsAhead, hc] at h
      simp [matchRep, matchRe, andThen, hc]

theorem matchRep_digit_succ (lo hi : Nat) (c : Nat) (t : List Nat) (hc : 48 ≤ c ∧ c ≤ 57) :
    matchRep (fun s' => matchRe (.charClass 48 57) s') lo (hi + 1) (c :: t)
      = (matchRep (fun s' => matchRe (.charClass 48 57) s') (lo - 1) hi t).map
          (fun u => (1 + u.1, u.2)) ++ (if lo = 0 then [(0, [])] else []) := by
  simp [matchRep, matchRe, andThen, hc]

theorem matchRep_digit (lo hi : Nat) (s : List Nat) :
    matchRep (fun s' => matchRe (.charClass 48 57) s') lo hi s
      = repThreads lo hi (digitsAhead s) := by
  induction hi generalizing lo s with
  | zero => simp [matchRep, repThreads]
  | succ hi ih =>
    cases s with
    | nil =>
      rw [matchRep_digit_zero _ _ [] rfl]
      simp [repThreads, digitsAhead]
    | cons c t =>
      by_cases hc : 48 ≤ c ∧ c ≤ 57
      · rw [matchRep_digit_succ _ _ _ _ hc, ih]
        simp [digitsAhead, hc, repThreads]
      · rw [matchRep_digit_zero _ _ _ (by simp [digitsAhead, hc])]
        simp [digitsAhead, hc, repThreads]

theorem matchRe_digits45 (s : List Nat) :
    matchRe (.rep (.charClass 48 57) 4 5) s =
      if 5 ≤ digitsAhead s then [(5, []), (4, [])]
      else if 4 ≤ digitsAhead s then [(4, [])] else [] := by
  rw [matchRe, matchRep_digit]
  generalize digitsAhead s = k
  rcases k with _ | _ | _ | _ | _ | k <;> simp [repThreads]

theorem matchHere_rawDataRe_cons (r : List Nat) :
    matchHere rawDataRe (116 :: 61 :: r) =
      if 5 ≤ digitsAhead r then some [116 :: 61 :: r.take 5, r.take 5]
      else if 4 ≤ digitsAhead r then some [116 :: 61 :: r.take 4, r.take 4] else none := by
  have h : matchRe rawDataRe (116 :: 61 :: r)
      = (matchRe (.rep (.charClass 48 57) 4 5) r).map
          (fun t => (2 + t.1, r.take t.1 :: t.2)) := by
    have hl : matchRe (.literal [116, 61]) (116 :: 61 :: r) = [(2, [])] := by
      simp [matchRe]
    have hc : ∀ s', matchRe (.capture (.rep (.charClass 48 57) 4 5)) s'
        = (matchRe (.rep (.charClass 48 57) 4 5) s').map
            (fun t => (t.1, s'.take t.1 :: t.2)) := fun s' => by
      simp only [matchRe]
    rw [rawDataRe, matchRe, hl]
    simp [andThen, hc]
  rw [matchHere, h, matchRe_digits45]
  split_ifs <;> simp

theorem matchHere_rawDataRe_none (s : List Nat) (h : ¬[116, 61] <+: s) :
    matchHere rawDataRe s = none := by
  rw [matchHere, rawDataRe, matchRe]
  simp [matchRe, andThen, h]

theorem digitsAhead_append (N post : List Nat) (hN : ∀ c ∈ N, 48 ≤ c ∧ c ≤ 57) :
    digitsAhead (N ++ post) = N.length + digitsAhead post := by
  induction N with
  | nil => simp
  | cons c N ih =>
    have hc := hN c (List.mem_cons_self _ _)
    have ih' := ih fun x hx => hN x (List.mem_cons_of_mem _ hx)
    show digitsAhead (c :: (N ++ post)) = _
    rw [digitsAhead, if_pos hc, ih', List.length_cons]
    omega

theorem digitsAhead_take (k : Nat) (s : List Nat) (h : k ≤ digitsAhead s) :
    (s.take k).length = k ∧ ∀ c ∈ s.take k, 48 ≤ c ∧ c ≤ 57 := by
  induction k generalizing s with
  | zero => simp
  | succ k ih =>
    cases s with
    | nil => simp [digitsAhead] at h
    | cons c t =>
      by_cases hc : 48 ≤ c ∧ c ≤ 57
      · simp only [digitsAhead, hc, and_self, if_true] at h
        obtain ⟨h1, h2⟩ := ih t (by omega)
        refine ⟨by simp [h1], ?_⟩
        intro x hx
        rw [List.take_succ_cons, List.mem_cons] at hx
        rcases hx with rfl | hx
        · exact hc
        · exact h2 x hx
      · simp [digitsAhead, hc] at h

theorem findSubmatch_some (r : Regexp) (data : List Nat) (m : List (List Nat))
    (h : FindSubmatch r data = some m) :
    ∃ pre s, data = pre ++ s ∧ matchHere r s = some m := by
  induction data with
  | nil => exact ⟨[], [], rfl, by simpa [FindSubmatch] using h⟩
  | cons c t ih =>
    rw [FindSubmatch] at h
    cases hm : matchHere r (c :: t) with
    | some m' =>
      rw [hm] at h
      exact ⟨[], c :: t, rfl, by rw [hm]; exact h⟩
    | none =>
      rw [hm] at h
      obtain ⟨pre, s, e, hs⟩ := ih h
      exact ⟨c :: pre, s, by rw [e]; rfl, hs⟩

theorem findSubmatch_none (r : Regexp) (data : List Nat)
    (h : ∀ pre s, data = pre ++ s → matchHere r s = none) :
    FindSubmatch r data = none := by
  induction data with
  | nil => simpa [FindSubmatch] using h [] [] rfl
  | cons c t ih =>
    rw [FindSubmatch, h [] (c :: t) rfl]
    exact ih fun pre s e => h (c :: pre) s (by rw [e]; rfl)

theorem findSubmatch_rawDataRe_skip (pre s : List Nat) (h : 116 ∉ pre) :
    FindSubmatch rawDataRe (pre ++ s) = FindSubmatch rawDataRe s := by
  induction pre with
  | nil => rfl
  | cons c p ih =>
    have hc : c ≠ 116 := fun e => h (e ▸ List.mem_cons_self _ _)
    have hp : 116 ∉ p := fun hx => h (List.mem_cons_of_mem _ hx)
    have hn : matchHere rawDataRe (c :: (p ++ s)) = none :=
      matchHere_rawDataRe_none _ (by simp [List.prefix_cons_iff, Ne.symm hc])
    rw [List.cons_append, FindSubmatch, hn]
    exact ih hp

/-- What a match of `t=(\d{4,5})` looks like: `t=`, then the captured run of four or
five digits. -/
theorem matchHere_rawDataRe_some (s : List Nat) (m : List (List Nat))
    (h : matchHere rawDataRe s = some m) :
    ∃ N, m = [116 :: 61 :: N, N] ∧ (N.length = 4 ∨ N.length = 5)
      ∧ (∀ c ∈ N, 48 ≤ c ∧ c ≤ 57) ∧ (116 :: 61 :: N) <+: s := by
  by_cases hp : [116, 61] <+: s
  · obtain ⟨r, rfl⟩ := hp
    simp only [List.cons_append, List.nil_append] at h ⊢
    rw [matchHere_rawDataRe_cons] at h
    by_cases h5 : 5 ≤ digitsAhead r
    · rw [if_pos h5] at h
      obtain ⟨h1, h2⟩ := digitsAhead_take 5 r h5
      refine ⟨r.take 5, (Option.some.inj h).symm, Or.inr h1, h2, ?_⟩
      simpa [List.prefix_cons_iff] using List.take_prefix 5 r
    · by_cases h4 : 4 ≤ digitsAhead r
      · rw [if_neg h5, if_pos h4] at h
        obtain ⟨h1, h2⟩ := digitsAhead_take 4 r h4
        refine ⟨r.take 4, (Option.some.inj h).symm, Or.inl h1, h2, ?_⟩
        simpa [List.prefix_cons_iff] using List.take_prefix 4 r
      · rw [if_neg h5, if_neg h4] at h
        exact absurd h (by simp)
  · rw [matchHere_rawDataRe_none s hp] at h
    exact absurd h (by simp)

/-! ## Decimal text -/

theorem parseDigits_digits (N : List Nat) (n : Nat) (hN : ∀ c ∈ N, 48 ≤ c ∧ c ≤ 57) :
    parseDigits N n = some (N.foldl (fun n ch => n * 10 + (ch - 48)) n) := by
  induction N generalizing n with
  | nil => rfl
  | cons c N ih =>
    have hc := hN c (List.mem_cons_self _ _)
    rw [parseDigits, if_pos hc, ih _ fun x hx => hN x (List.mem_cons_of_mem _ hx)]
    rfl

theorem foldl_digits_lt (N : List Nat) (n : Nat) (hN : ∀ c ∈ N, 48 ≤ c ∧ c ≤ 57) :
    N.foldl (fun n ch => n * 10 + (ch - 48)) n < (n + 1) * 10 ^ N.length := by
  induction N generalizing n with
  | nil => simp
  | cons c N ih =>
    have hc := hN c (List.mem_cons_self _ _)
    have h := ih (n * 10 + (c - 48)) fun x hx => hN x (List.mem_cons_of_mem _ hx)
    rw [List.foldl_cons, List.length_cons, pow_succ]
    have h2 : (n * 10 + (c - 48) + 1) * 10 ^ N.length ≤ (n + 1) * (10 ^ N.length * 10) := by
      have : n * 10 + (c - 48) + 1 ≤ (n + 1) * 10 := by omega
      calc (n * 10 + (c - 48) + 1) * 10 ^ N.length
          ≤ ((n + 1) * 10) * 10 ^ N.length := Nat.mul_le_mul_right _ this
        _ = (n + 1) * (10 ^ N.length * 10) := by ring
    omega

theorem decimalValue_lt (N : List Nat) (hN : ∀ c ∈ N, 48 ≤ c ∧ c ≤ 57) :
    decimalValue N < 10 ^ N.length := by
  simpa [decimalValue] using foldl_digits_lt N 0 hN

theorem parseInt_digits (N : List Nat) (hne : N ≠ []) (hN : ∀ c ∈ N, 48 ≤ c ∧ c ≤ 57) :
    parseInt N = some (decimalValue N : Int) := by
  cases N with
  | nil => exact absurd rfl hne
  | cons c N =>
    have hc := hN c (List.mem_cons_self _ _)
    have h45 : c ≠ 45 := by omega
    have h43 : c ≠ 43 := by omega
    have : parseInt (c :: N) = (parseDigits (c :: N) 0).map fun n => (n : Int) := by
      unfold parseInt
      split
      · simp at *
      · simp_all
      · simp_all
      · rfl
    rw [this, parseDigits_digits _ _ hN]
    rfl

theorem atoi_digits (sz : IntSize) (N : List Nat) (hne : N ≠ []) (hlen : N.length ≤ 5)
    (hN : ∀ c ∈ N, 48 ≤ c ∧ c ≤ 57) :
    Atoi sz N = some (decimalValue N : Int) ∧ decimalValue N ≤ 99999 := by
  have hlt := decimalValue_lt N hN
  have hpow : 10 ^ N.length ≤ 10 ^ 5 := Nat.pow_le_pow_right (by norm_num) hlen
  have hle : decimalValue N ≤ 99999 := by omega
  refine ⟨?_, hle⟩
  have h0 : (0 : Int) ≤ (decimalValue N : Int) := Int.ofNat_nonneg _
  have h1 : (decimalValue N : Int) ≤ 99999 := by exact_mod_cast hle
  rw [Atoi, parseInt_digits N hne hN]
  cases sz <;> simp only [IntSize.bits] <;> rw [if_pos] <;> constructor <;> omega

theorem parseDigits_append (xs ys : List Nat) (n : Nat) :
    parseDigits (xs ++ ys) n = (parseDigits xs n).bind (parseDigits ys) := by
  induction xs generalizing n with
  | nil => rfl
  | cons c xs ih =>
    by_cases hc : 48 ≤ c ∧ c ≤ 57
    · show parseDigits (c :: (xs ++ ys)) n = (parseDigits (c :: xs) n).bind _
      rw [parseDigits, parseDigits, if_pos hc, if_pos hc]
      exact ih _
    · simp [parseDigits, hc]

theorem fmtNatAux_spec (fuel n : Nat) (h : n < fuel) :
    ∃ ds, (∀ acc, fmtNatAux fuel n acc = ds ++ acc) ∧ ds ≠ []
      ∧ (∀ c ∈ ds, 48 ≤ c ∧ c ≤ 57) ∧ parseDigits ds 0 = some n := by
  induction fuel generalizing n with
  | zero => omega
  | succ fuel ih =>
    by_cases hn : n < 10
    · refine ⟨[48 + n], fun acc => by simp [fmtNatAux, hn], by simp, ?_, ?_⟩
      · intro c hc
        rw [List.mem_singleton] at hc
        omega
      · have : 48 ≤ 48 + n ∧ 48 + n ≤ 57 := by omega
        simp [parseDigits, this]
    · obtain ⟨ds, h1, _, h3, h4⟩ := ih (n / 10) (by omega)
      refine ⟨ds ++ [48 + n % 10], fun acc => ?_, by simp, ?_, ?_⟩
      · simp [fmtNatAux, hn, h1]
      · intro c hc
        rw [List.mem_append, List.mem_singleton] at hc
        rcases hc with hc | rfl
        · exact h3 c hc
        · omega
      · have : 48 ≤ 48 + n % 10 ∧ 48 + n % 10 ≤ 57 := by omega
        rw [parseDigits_append, h4]
        simp only [Option.some_bind, parseDigits, this, and_self, if_true]
        congr 1
        omega

theorem fmtNat_spec (n : Nat) :
    fmtNat n ≠ [] ∧ (∀ c ∈ fmtNat n, 48 ≤ c ∧ c ≤ 57)
      ∧ parseDigits (fmtNat n) 0 = some n := by
  obtain ⟨ds, h1, h2, h3, h4⟩ := fmtNatAux_spec (n + 1) n (by omega)
  have : fmtNat n = ds := by simp [fmtNat, h1]
  rw [this]
  exact ⟨h2, h3, h4⟩

theorem parseInt_fmtInt (v : Int) : parseInt (fmtInt v) = some v := by
  obtain ⟨h1, h2, h3⟩ := fmtNat_spec v.natAbs
  by_cases hv : v < 0
  · rw [fmtInt, if_pos hv]
    have hneg : -(v.natAbs : Int) = v := by
      rw [Int.ofNat_natAbs_of_nonpos (le_of_lt hv), neg_neg]
    simp only [parseInt, h1, if_false, h3]
    exact congrArg some hneg
  · rw [fmtInt, if_neg hv]
    have := parseInt_digits (fmtNat v.natAbs) h1 h2
    have hd : decimalValue (fmtNat v.natAbs) = v.natAbs := by
      have h := parseDigits_digits (fmtNat v.natAbs) 0 h2
      rw [h3] at h
      exact (Option.some.inj h).symm
    rw [this, hd, Int.natAbs_of_nonneg (not_lt.mp hv)]

theorem comma_not_mem_fmtInt (v : Int) : 44 ∉ fmtInt v := by
  obtain ⟨_, h2, _⟩ := fmtNat_spec v.natAbs
  intro h
  unfold fmtInt at h
  split at h
  · rw [List.mem_cons] at h
    rcases h with h | h
    · omega
    · have := h2 44 h
      omega
  · have := h2 44 h
    omega

theorem newline_not_mem_fmtInt (v : Int) : 10 ∉ fmtInt v := by
  obtain ⟨_, h2, _⟩ := fmtNat_spec v.natAbs
  intro h
  unfold fmtInt at h
  split at h
  · rw [List.mem_cons] at h
    rcases h with h | h
    · omega
    · have := h2 10 h
      omega
  · have := h2 10 h
    omega

/-! ## Rounding to `float64` -/

theorem roundHalfEven_err (y : ℚ) : |(roundHalfEven y : ℚ) - y| ≤ 1 / 2 := by
  have h1 := Int.floor_le y
  have h2 := Int.lt_floor_add_one y
  unfold roundHalfEven
  rw [abs_le]
  split_ifs with a b c
  · constructor <;> linarith
  · push_cast
    constructor <;> linarith
  · constructor <;> linarith
  · push_cast
    constructor <;> linarith

theorem roundHalfEven_eq (y : ℚ) (m : ℤ) (h : |y - m| < 1 / 2) : roundHalfEven y = m := by
  have h0 := roundHalfEven_err y
  rw [abs_lt] at h
  rw [abs_le] at h0
  have h3 : ((roundHalfEven y - m : ℤ) : ℚ) < 1 := by
    push_cast
    linarith
  have h4 : (-1 : ℚ) < ((roundHalfEven y - m : ℤ) : ℚ) := by
    push_cast
    linarith
  have h5 : roundHalfEven y - m < 1 := by exact_mod_cast h3
  have h6 : -1 < roundHalfEven y - m := by exact_mod_cast h4
  omega

theorem ulp_pos (q : ℚ) : 0 < ulp q := by
  unfold ulp
  positivity

theorem ulp_le (q : ℚ) (hq : q ≠ 0) : ulp q ≤ |q| / 2 ^ 52 := by
  have h := Int.zpow_log_le_self (b := 2) (r := |q|) (by norm_num) (abs_pos.mpr hq)
  unfold ulp
  rw [zpow_sub₀ (by norm_num : (2 : ℚ) ≠ 0)]
  have : ((2 : ℕ) : ℚ) = 2 := by norm_num
  rw [this] at h
  have e : (2 : ℚ) ^ (52 : ℤ) = 2 ^ 52 := by norm_num
  rw [e]
  exact div_le_div_of_nonneg_right h (by positivity)

theorem toFloat64_zero : toFloat64 0 = 0 := by
  simp [toFloat64, roundHalfEven]

/-- Each rounding has a relative error of at most `2^-53`. -/
theorem toFloat64_err (q : ℚ) : |toFloat64 q - q| ≤ |q| / 2 ^ 53 := by
  by_cases hq : q = 0
  · subst hq
    simp [toFloat64_zero]
  · have hu := ulp_pos q
    have h := roundHalfEven_err (q / ulp q)
    have e : toFloat64 q - q = ((roundHalfEven (q / ulp q) : ℚ) - q / ulp q) * ulp q := by
      unfold toFloat64
      field_simp
    rw [e, abs_mul, abs_of_pos hu]
    have h2 := ulp_le q hq
    calc |(roundHalfEven (q / ulp q) : ℚ) - q / ulp q| * ulp q
        ≤ 1 / 2 * ulp q := mul_le_mul_of_nonneg_right h hu.le
      _ ≤ 1 / 2 * (|q| / 2 ^ 52) := mul_le_mul_of_nonneg_left h2 (by norm_num)
      _ = |q| / 2 ^ 53 := by ring

theorem log_eq (q : ℚ) (e : ℤ) (h1 : (2 : ℚ) ^ e ≤ |q|) (h2 : |q| < (2 : ℚ) ^ (e + 1)) :
    Int.log 2 |q| = e := by
  have hpos : 0 < |q| := lt_of_lt_of_le (by positivity) h1
  have a : e ≤ Int.log 2 |q| :=
    (Int.zpow_le_iff_le_log (b := 2) (by norm_num) hpos).mp (by exact_mod_cast h1)
  have b : Int.log 2 |q| < e + 1 :=
    (Int.lt_zpow_iff_log_lt (b := 2) (by norm_num) hpos).mp (by exact_mod_cast h2)
  omega

/-- How to evaluate a rounding: the binade `e` of `q` and the integer `m` nearest to
`q` in units of the last place. -/
theorem toFloat64_eq (q : ℚ) (e m : ℤ) (h1 : (2 : ℚ) ^ e ≤ |q|) (h2 : |q| < (2 : ℚ) ^ (e + 1))
    (h3 : |q / (2 : ℚ) ^ (e - 52) - m| < 1 / 2) : toFloat64 q = m * (2 : ℚ) ^ (e - 52) := by
  unfold toFloat64 ulp
  rw [log_eq q e h1 h2, roundHalfEven_eq _ m h3]


/-- Rounding a value `q` that is within `E` of `t` gives a value within
`E + (|t| + E) / 2^53` of `t`. -/
theorem toFloat64_near (q t E : ℚ) (h : |q - t| ≤ E) :
    |toFloat64 q - t| ≤ E + (|t| + E) / 2 ^ 53 := by
  have h1 := toFloat64_err q
  have h2 : |q| ≤ |t| + E := by
    have := abs_add (q - t) t
    rw [sub_add_cancel] at this
    linarith
  have h3 : |toFloat64 q - t| ≤ |toFloat64 q - q| + |q - t| := by
    have := abs_add (toFloat64 q - q) (q - t)
    rwa [sub_add_sub_cancel] at this
  have h4 : |q| / 2 ^ 53 ≤ (|t| + E) / 2 ^ 53 := div_le_div_of_nonneg_right h2 (by positivity)
  linarith

theorem toFloat64_thousand : toFloat64 1000 = 1000 := by
  rw [toFloat64_eq 1000 9 (1000 * 2 ^ 43) (by norm_num) (by norm_num) (by norm_num)]
  norm_num

/-- The double nearest to 32.9. -/
theorem toFloat64_const : toFloat64 (329 / 10) = 4630263366890291 / 2 ^ 47 := by
  rw [toFloat64_eq (329 / 10) 5 4630263366890291 (by norm_num [abs_of_pos])
    (by norm_num [abs_of_pos]) (by norm_num [abs_lt])]
  norm_num

/-- The distance of `rawProbeDataToFarenheit` from the exact value. -/
theorem rawProbeDataToFarenheit_near (raw : Int) :
    |rawProbeDataToFarenheit raw - ((raw : ℚ) / 1000 * 9 / 5 + 329 / 10)|
      ≤ (|(raw : ℚ)| * 9 / 5000 + 329 / 10) / 2 ^ 50 := by
  have hA : 0 ≤ |(raw : ℚ)| := abs_nonneg _
  have e1 : |(raw : ℚ) / 1000| = |(raw : ℚ)| / 1000 := by rw [abs_div]; norm_num
  have e2 : |(raw : ℚ) / 1000 * 9| = |(raw : ℚ)| / 1000 * 9 := by
    rw [abs_mul, abs_div]; norm_num
  have e3 : |(raw : ℚ) / 1000 * 9 / 5| = |(raw : ℚ)| / 1000 * 9 / 5 := by
    rw [abs_div, abs_mul, abs_div]; norm_num
  have e4 : |(329 / 10 : ℚ)| = 329 / 10 := by norm_num [abs_of_pos]
  have ht : |(raw : ℚ) / 1000 * 9 / 5 + 329 / 10| ≤ |(raw : ℚ)| * 9 / 5000 + 329 / 10 := by
    refine (abs_add _ _).trans ?_
    rw [e3, e4]
    linarith
  have h1 := toFloat64_near (raw : ℚ) raw 0 (by simp)
  have h2 := toFloat64_near (toFloat64 raw / 1000) ((raw : ℚ) / 1000)
    (|toFloat64 raw - raw| / 1000) (by rw [← sub_div, abs_div]; norm_num)
  have h3 := toFloat64_near (toFloat64 (toFloat64 raw / 1000) * 9) ((raw : ℚ) / 1000 * 9)
    (|toFloat64 (toFloat64 raw / 1000) - raw / 1000| * 9)
    (by rw [← sub_mul, abs_mul]; norm_num)
  have h4 := toFloat64_near (toFloat64 (toFloat64 (toFloat64 raw / 1000) * 9) / 5)
    ((raw : ℚ) / 1000 * 9 / 5)
    (|toFloat64 (toFloat64 (toFloat64 raw / 1000) * 9) - raw / 1000 * 9| / 5)
    (by rw [← sub_div, abs_div]; norm_num)
  have h5 := toFloat64_near (329 / 10) (329 / 10) 0 (by simp)
  have h6 := toFloat64_near
    (toFloat64 (toFloat64 (toFloat64 (toFloat64 raw / 1000) * 9) / 5) + toFloat64 (329 / 10))
    ((raw : ℚ) / 1000 * 9 / 5 + 329 / 10)
    (|toFloat64 (toFloat64 (toFloat64 (toFloat64 raw / 1000) * 9) / 5) - raw / 1000 * 9 / 5|
      + |toFloat64 (329 / 10) - 329 / 10|)
    (by
      have := abs_add (toFloat64 (toFloat64 (toFloat64 (toFloat64 raw / 1000) * 9) / 5)
        - (raw : ℚ) / 1000 * 9 / 5) (toFloat64 (329 / 10) - 329 / 10)
      rwa [sub_add_sub_comm] at this)
  rw [e1] at h2
  rw [e2] at h3
  rw [e3] at h4
  rw [e4] at h5
  unfold rawProbeDataToFarenheit cToF probeMultiplier
  simp only [toFloat64_thousand]
  refine h6.trans ?_
  norm_num at h1 h2 h3 h4 h5 ⊢
  linarith

theorem rawProbeDataToFarenheit_thousand :
    rawProbeDataToFarenheit 1000 = 4883590845929881 / 2 ^ 47 := by
  have h1 : toFloat64 ((1000 : ℤ) : ℚ) = 1000 := by
    rw [Int.cast_ofNat]
    exact toFloat64_thousand
  have h2 : toFloat64 1 = 1 := by
    rw [toFloat64_eq 1 0 (2 ^ 52) (by norm_num) (by norm_num) (by norm_num)]
    norm_num
  have h3 : toFloat64 9 = 9 := by
    rw [toFloat64_eq 9 3 (9 * 2 ^ 49) (by norm_num) (by norm_num) (by norm_num)]
    norm_num
  have h4 : toFloat64 (9 / 5) = 8106479329266893 / 2 ^ 52 := by
    rw [toFloat64_eq (9 / 5) 0 8106479329266893 (by norm_num [abs_of_pos])
      (by norm_num [abs_of_pos]) (by norm_num [abs_lt])]
    norm_num
  have h5 : toFloat64 (156274907069756205 / 4503599627370496)
      = 4883590845929881 / 140737488355328 := by
    rw [toFloat64_eq _ 5 4883590845929881 (by norm_num [abs_of_pos])
      (by norm_num [abs_of_pos]) (by norm_num [abs_lt])]
    norm_num
  unfold rawProbeDataToFarenheit cToF probeMultiplier
  simp only [h1, toFloat64_thousand]
  norm_num [h2, h3, h4, h5, toFloat64_const]

theorem rawProbeDataToFarenheit_sample :
    toFloat64 (toFloat64 ((10125 : ℤ) : ℚ) / toFloat64 probeMultiplier) = 81 / 8
      ∧ rawProbeDataToFarenheit 10125 = 409 / 8 := by
  have h1 : toFloat64 ((10125 : ℤ) : ℚ) = 10125 := by
    rw [Int.cast_ofNat,
      toFloat64_eq 10125 13 (10125 * 2 ^ 39) (by norm_num) (by norm_num) (by norm_num)]
    norm_num
  have h2 : toFloat64 (81 / 8) = 81 / 8 := by
    rw [toFloat64_eq (81 / 8) 3 (81 * 2 ^ 46) (by norm_num [abs_of_pos])
      (by norm_num [abs_of_pos]) (by norm_num [abs_lt])]
    norm_num
  have h3 : toFloat64 (729 / 8) = 729 / 8 := by
    rw [toFloat64_eq (729 / 8) 6 (729 * 2 ^ 43) (by norm_num [abs_of_pos])
      (by norm_num [abs_of_pos]) (by norm_num [abs_lt])]
    norm_num
  have h4 : toFloat64 (729 / 40) = 5129881450551706 / 2 ^ 48 := by
    rw [toFloat64_eq (729 / 40) 4 5129881450551706 (by norm_num [abs_of_pos])
      (by norm_num [abs_of_pos]) (by norm_num [abs_lt])]
    norm_num
  have h5 : toFloat64 (409 / 8) = 409 / 8 := by
    rw [toFloat64_eq (409 / 8) 5 (409 * 2 ^ 44) (by norm_num [abs_of_pos])
      (by norm_num [abs_of_pos]) (by norm_num [abs_lt])]
    norm_num
  have hc : toFloat64 (toFloat64 ((10125 : ℤ) : ℚ) / toFloat64 probeMultiplier) = 81 / 8 := by
    rw [probeMultiplier, h1, toFloat64_thousand]
    norm_num [h2]
  refine ⟨hc, ?_⟩
  unfold rawProbeDataToFarenheit cToF
  simp only [hc]
  norm_num [h3, h4, h5, toFloat64_const]

theorem toFloat64_nearest_347 : toFloat64 (347 / 10) = 4883590845929882 / 2 ^ 47 := by
  rw [toFloat64_eq (347 / 10) 5 4883590845929882 (by norm_num [abs_of_pos])
    (by norm_num [abs_of_pos]) (by norm_num [abs_lt])]
  norm_num

/-! ## Runs of `main` -/

theorem matchHere_rawDataRe_run (N post : List Nat) (hlen : N.length = 4 ∨ N.length = 5)
    (hN : ∀ c ∈ N, 48 ≤ c ∧ c ≤ 57) (hpost : N.length = 4 → digitsAhead post = 0) :
    matchHere rawDataRe (116 :: 61 :: (N ++ post)) = some [116 :: 61 :: N, N] := by
  rw [matchHere_rawDataRe_cons, digitsAhead_append N post hN]
  rcases hlen with h4 | h5
  · have hp := hpost h4
    have e : List.take 4 (N ++ post) = N := by
      rw [← h4]
      exact List.take_left _ _
    rw [if_neg (by omega), if_pos (by omega), e]
  · have e : List.take 5 (N ++ post) = N := by
      rw [← h5]
      exact List.take_left _ _
    rw [if_pos (by omega), e]

theorem findSubmatch_of_matchHere (r : Regexp) (c : Nat) (s : List Nat) (m : List (List Nat))
    (h : matchHere r (c :: s) = some m) : FindSubmatch r (c :: s) = some m := by
  rw [FindSubmatch, h]

theorem mainOn_of_match (w : World) (data N : List Nat) (v : Int)
    (hY : Find isValid data = [89, 69, 83])
    (hm : FindSubmatch rawDataRe data = some [116 :: 61 :: N, N])
    (hA : Atoi w.intSize N = some v) :
    mainOn w data =
      match storeReading w v with
      | (some e, log') =>
        { exit := .fatal (.couldNotStore e), log := log', stdout := [], calls := [v] }
      | (none, log') =>
        { exit := .ok, log := log', stdout := [rawProbeDataToFarenheit v], calls := [v] } := by
  simp [mainOn, hY, hm, hA]

theorem mainOn_of_no_match (w : World) (data : List Nat)
    (hY : Find isValid data = [89, 69, 83]) (hm : FindSubmatch rawDataRe data = none) :
    mainOn w data = quiet w .ok := by
  simp [mainOn, hY, hm, quiet]

theorem mainOn_of_no_marker (w : World) (data : List Nat)
    (hY : Find isValid data ≠ [89, 69, 83]) (hN : Find isValid data ≠ [78, 79]) :
    mainOn w data = quiet w .ok := by
  simp [mainOn, hY, hN, quiet]

theorem storeReading_ok (w : World) (v : Int) (ho : w.logOpen = true)
    (hw : w.logWrite = none) (hc : w.logClose = true) :
    storeReading w v = (none, w.log ++ reading.String ⟨w.now, v⟩) := by
  simp [storeReading, ho, hw, hc]

theorem main_of_read (w : World) (data : List Nat) (h : readProbe w = .ok data) :
    main w = mainOn w data := by
  simp [main, h]

theorem readProbe_length (w : World) (data : List Nat) (h : readProbe w = .ok data) :
    data.length = 100 := by
  unfold readProbe at h
  split at h
  · exact absurd h (by simp)
  · exact absurd h (by simp)
  · exact absurd h (by simp)
  · have e := Except.ok.inj h
    rw [← e, List.length_append, List.length_replicate, List.length_take]
    omega

theorem not_mem_of_dump (l : List Nat) (h : l.all dumpByte = true) : 116 ∉ l := by
  intro hm
  have := List.all_eq_true.mp h 116 hm
  simp [dumpByte] at this

/-! ## The claims -/

/-- C1, evaluated on the documented two-line text with the marker `NO`: the marker is
not at the end of the 100-byte buffer, so `YES|NO$` finds nothing, `string(good)` is
neither `NO` nor `YES`, and the run ends with exit 0 instead of the fatal error;
nothing is stored and nothing is printed. -/
theorem no_marker_in_documented_format_is_not_fatal :
    Find isValid (sensorText [78, 79] [49, 48, 49, 50, 53] ++ List.replicate 26 0) = []
      ∧ main (sampleWorld (sensorText [78, 79] [49, 48, 49, 50, 53]))
        = { exit := .ok, log := [], stdout := [], calls := [] } := by
  constructor <;> decide

/-- C2 as stated fails: on the text of the comment in the source, `t=10125`, with a log
that cannot be opened, `storeReading` is called with 10125, the run is fatal, nothing
is appended and nothing is printed; and with `t=1000` and a working log the value
printed is the double 34.699999999999996, which is neither `(1000/1000)*9/5 + 32.9`
nor the double nearest to it. -/
theorem documented_format_needs_a_working_log :
    (main { sampleWorld (sensorText [89, 69, 83] [49, 48, 49, 50, 53]) with
        logOpen := false }).calls = [10125]
      ∧ main { sampleWorld (sensorText [89, 69, 83] [49, 48, 49, 50, 53]) with
          logOpen := false }
        = { exit := .fatal (.couldNotStore .open), log := [], stdout := [], calls := [10125] }
      ∧ (main (sampleWorld (sensorText [89, 69, 83] [49, 48, 48, 48]))).stdout
        = [rawProbeDataToFarenheit 1000]
      ∧ rawProbeDataToFarenheit 1000 = 4883590845929881 / 2 ^ 47
      ∧ rawProbeDataToFarenheit 1000 ≠ (1000 : ℚ) / 1000 * 9 / 5 + 329 / 10
      ∧ rawProbeDataToFarenheit 1000 ≠ toFloat64 ((1000 : ℚ) / 1000 * 9 / 5 + 329 / 10) := by
  refine ⟨by decide, by decide, by rfl, rawProbeDataToFarenheit_thousand, ?_, ?_⟩
  · rw [rawProbeDataToFarenheit_thousand]
    norm_num
  · have e : (1000 : ℚ) / 1000 * 9 / 5 + 329 / 10 = 347 / 10 := by norm_num
    rw [rawProbeDataToFarenheit_thousand, e, toFloat64_nearest_347]
    norm_num

/-- C2, amended: on a buffer in the documented two-line format (a dump line ending in
`YES`, a dump line ending in `t=N` with `N` four or five digits, then `post`, which
does not go on with a digit: the newline and the zero padding), one run of `main`
calls `storeReading` exactly once, with the integer value of `N`; when the log can be
opened, written and closed, the run appends exactly the line of the current time and
that value, prints the `float64` value `rawProbeDataToFarenheit` of it and exits with
0; when a step of `storeReading` fails, the run is fatal and prints nothing; the value
`rawProbeDataToFarenheit` of it is within `2 / 10^13` of `(N/1000)*9/5 + 32.9`. -/
theorem documented_format_stores_and_prints (w : World) (l₁ l₂ N post : List Nat)
    (hread : readProbe w = .ok (l₁ ++ [89, 69, 83, 10] ++ l₂ ++ [116, 61] ++ N ++ post))
    (h₁ : l₁.all dumpByte = true) (h₂ : l₂.all dumpByte = true)
    (hlen : N.length = 4 ∨ N.length = 5) (hN : ∀ c ∈ N, 48 ≤ c ∧ c ≤ 57)
    (hpost : ∀ c rest, post = c :: rest → ¬(48 ≤ c ∧ c ≤ 57)) :
    (main w).calls = [(decimalValue N : Int)]
      ∧ (w.logOpen = true → w.logWrite = none → w.logClose = true →
          main w =
            { exit := .ok
              log := w.log ++ reading.String ⟨w.now, decimalValue N⟩
              stdout := [rawProbeDataToFarenheit (decimalValue N)]
              calls := [(decimalValue N : Int)] })
      ∧ (∀ e, (storeReading w (decimalValue N)).1 = some e →
          (main w).exit = .fatal (.couldNotStore e) ∧ (main w).stdout = [])
      ∧ |rawProbeDataToFarenheit (decimalValue N)
          - (((decimalValue N : Int) : ℚ) / 1000 * 9 / 5 + 329 / 10)| ≤ 2 / 10 ^ 13 := by
  have hne : N ≠ [] := by
    intro e
    rw [e] at hlen
    simp at hlen
  obtain ⟨hA, hle⟩ := atoi_digits w.intSize N hne (by omega) hN
  have hY : Find isValid (l₁ ++ [89, 69, 83, 10] ++ l₂ ++ [116, 61] ++ N ++ post)
      = [89, 69, 83] := by
    rw [find_isValid, if_pos]
    exact ⟨l₁, [10] ++ l₂ ++ [116, 61] ++ N ++ post, by simp⟩
  have hd : digitsAhead post = 0 := by
    cases post with
    | nil => rfl
    | cons c rest => simp [digitsAhead, hpost c rest rfl]
  have hpre : 116 ∉ l₁ ++ [89, 69, 83, 10] ++ l₂ := by
    have a₁ := not_mem_of_dump l₁ h₁
    have a₂ := not_mem_of_dump l₂ h₂
    simp [a₁, a₂]
  have hm : FindSubmatch rawDataRe (l₁ ++ [89, 69, 83, 10] ++ l₂ ++ [116, 61] ++ N ++ post)
      = some [116 :: 61 :: N, N] := by
    have e : l₁ ++ [89, 69, 83, 10] ++ l₂ ++ [116, 61] ++ N ++ post
        = (l₁ ++ [89, 69, 83, 10] ++ l₂) ++ (116 :: 61 :: (N ++ post)) := by
      simp
    rw [e, findSubmatch_rawDataRe_skip _ _ hpre]
    exact findSubmatch_of_matchHere _ _ _ _
      (matchHere_rawDataRe_run N _ hlen hN fun _ => hd)
  have hrun := mainOn_of_match w _ N _ hY hm hA
  rw [main_of_read w _ hread, hrun]
  refine ⟨?_, ?_, ?_, ?_⟩
  · rcases hs : storeReading w (decimalValue N : Int) with ⟨_ | e, log'⟩ <;> rfl
  · intro ho hw hc
    rw [storeReading_ok w _ ho hw hc]
  · intro e he
    rcases hs : storeReading w (decimalValue N : Int) with ⟨_ | e', log'⟩
    · rw [hs] at he
      exact absurd he (by simp)
    · rw [hs] at he
      have : e' = e := Option.some.inj he
      subst this
      exact ⟨rfl, rfl⟩
  · refine (rawProbeDataToFarenheit_near _).trans ?_
    have h0 : |((decimalValue N : Int) : ℚ)| ≤ 99999 := by
      rw [abs_of_nonneg (by positivity)]
      exact_mod_cast hle
    have h1 : |((decimalValue N : Int) : ℚ)| * 9 / 5000 + 329 / 10 ≤ 213 := by linarith
    calc (|((decimalValue N : Int) : ℚ)| * 9 / 5000 + 329 / 10) / 2 ^ 50
        ≤ 213 / 2 ^ 50 := div_le_div_of_nonneg_right h1 (by positivity)
      _ ≤ 2 / 10 ^ 13 := by norm_num

/-- C3, evaluated on the documented text with the six-digit field `t=100000` (100 °C):
the pattern matches on the first five digits, so the run stores and prints the raw
code 10000 instead of falling into the no-match case. -/
theorem six_digit_field_is_stored_truncated :
    FindSubmatch rawDataRe (sensorText [89, 69, 83] [49, 48, 48, 48, 48, 48]
        ++ List.replicate 24 0)
      = some [[116, 61, 49, 48, 48, 48, 48], [49, 48, 48, 48, 48]]
      ∧ (main (sampleWorld (sensorText [89, 69, 83] [49, 48, 48, 48, 48, 48]))).exit = .ok
      ∧ (main (sampleWorld (sensorText [89, 69, 83] [49, 48, 48, 48, 48, 48]))).calls = [10000]
      ∧ (main (sampleWorld (sensorText [89, 69, 83] [49, 48, 48, 48, 48, 48]))).log
        = [49, 54, 49, 49, 48, 49, 50, 49, 50, 55, 44, 49, 48, 48, 48, 48, 10]
      ∧ (main (sampleWorld (sensorText [89, 69, 83] [49, 48, 48, 48, 48, 48]))).stdout
        = [rawProbeDataToFarenheit 10000] := by
  refine ⟨by decide, by decide, by decide, by decide, by rfl⟩

/-- C4 as stated fails: for the raw code 1000 the `float64` result is the double
34.699999999999996, that is `4883590845929881 / 2^47`, which is neither
`(1000/1000)*9/5 + 32.9 = 34.7` nor the double nearest to 34.7. -/
theorem conversion_of_1000_is_not_exact :
    rawProbeDataToFarenheit 1000 = 4883590845929881 / 2 ^ 47
      ∧ rawProbeDataToFarenheit 1000 ≠ ((1000 : Int) : ℚ) / 1000 * 9 / 5 + 329 / 10
      ∧ toFloat64 (347 / 10) = 4883590845929882 / 2 ^ 47
      ∧ rawProbeDataToFarenheit 1000 ≠ toFloat64 (347 / 10) := by
  refine ⟨rawProbeDataToFarenheit_thousand, ?_, toFloat64_nearest_347, ?_⟩
  · rw [rawProbeDataToFarenheit_thousand]
    norm_num
  · rw [rawProbeDataToFarenheit_thousand, toFloat64_nearest_347]
    norm_num

/-- C4, amended: `rawProbeDataToFarenheit raw` is the `float64` evaluation of
`(raw/1000)*9/5 + 32.9` and differs from that exact value by at most
`(|raw|*9/5000 + 32.9) / 2^50`; the constant `cToF` adds is the double nearest to
32.9, within `32.9 / 2^53` of it, and not 32, and it is the result for the raw code 0;
the raw code 10125 is exactly 10.125 degrees Celsius and is displayed as exactly
51.125. -/
theorem rawProbeDataToFarenheit_rounded (raw : Int) :
    |rawProbeDataToFarenheit raw - ((raw : ℚ) / 1000 * 9 / 5 + 329 / 10)|
        ≤ (|(raw : ℚ)| * 9 / 5000 + 329 / 10) / 2 ^ 50
      ∧ rawProbeDataToFarenheit raw
        = toFloat64 (toFloat64 (toFloat64 (toFloat64 (toFloat64 raw / 1000) * 9) / 5)
            + toFloat64 (329 / 10))
      ∧ toFloat64 (329 / 10) = 4630263366890291 / 2 ^ 47
      ∧ |toFloat64 (329 / 10) - 329 / 10| ≤ 329 / 10 / 2 ^ 53
      ∧ toFloat64 (329 / 10) ≠ 32
      ∧ rawProbeDataToFarenheit 0 = toFloat64 (329 / 10)
      ∧ toFloat64 (toFloat64 ((10125 : Int) : ℚ) / toFloat64 probeMultiplier) = 10125 / 1000
      ∧ rawProbeDataToFarenheit 10125 = 51125 / 1000 := by
  refine ⟨rawProbeDataToFarenheit_near raw, ?_, toFloat64_const, ?_, ?_, ?_, ?_, ?_⟩
  · simp only [rawProbeDataToFarenheit, cToF, probeMultiplier, toFloat64_thousand]
  · have h := toFloat64_err (329 / 10)
    rwa [abs_of_pos (by norm_num : (0 : ℚ) < 329 / 10)] at h
  · rw [toFloat64_const]
    norm_num
  · have h1 : toFloat64 (4630263366890291 / 2 ^ 47) = 4630263366890291 / 2 ^ 47 := by
      rw [toFloat64_eq _ 5 4630263366890291 (by norm_num [abs_of_pos])
        (by norm_num [abs_of_pos]) (by norm_num [abs_lt])]
      norm_num
    simp only [rawProbeDataToFarenheit, cToF, probeMultiplier, toFloat64_thousand,
      Int.cast_zero, toFloat64_zero, zero_div, zero_mul, zero_add, toFloat64_const, h1]
  · rw [rawProbeDataToFarenheit_sample.1]
    norm_num
  · rw [rawProbeDataToFarenheit_sample.2]
    norm_num

/-- C2 at the text of the comment in the source, `t=10125` at time 1611012127. -/
theorem documented_format_stores_and_prints_witness :
    (main (sampleWorld (sensorText [89, 69, 83] [49, 48, 49, 50, 53]))).calls = [10125]
      ∧ main (sampleWorld (sensorText [89, 69, 83] [49, 48, 49, 50, 53]))
        = { exit := .ok
            log := [49, 54, 49, 49, 48, 49, 50, 49, 50, 55, 44, 49, 48, 49, 50, 53, 10]
            stdout := [rawProbeDataToFarenheit 10125]
            calls := [10125] } := by
  have h := documented_format_stores_and_prints
    (sampleWorld (sensorText [89, 69, 83] [49, 48, 49, 50, 53])) dumpCrc dumpLine
    [49, 48, 49, 50, 53] (10 :: List.replicate 25 0) (by rfl) (by decide) (by decide)
    (Or.inr rfl) (by decide) (fun c rest e => by
      have hc : c = 10 := (List.cons.inj e).1.symm
      omega)
  exact ⟨h.1, h.2.1 rfl rfl rfl⟩

theorem takeWhile_dropWhile_comma (A rest : List Nat) (hA : 44 ∉ A) :
    (A ++ 44 :: rest).takeWhile (fun c => c != 44) = A
      ∧ (A ++ 44 :: rest).dropWhile (fun c => c != 44) = 44 :: rest := by
  induction A with
  | nil => simp
  | cons a A ih =>
    have ha : a ≠ 44 := fun e => hA (e ▸ List.mem_cons_self _ _)
    obtain ⟨h1, h2⟩ := ih fun hx => hA (List.mem_cons_of_mem _ hx)
    constructor
    · simp [List.takeWhile_cons, ha, h1]
    · simp [List.dropWhile_cons, ha, h2]

/-- C5: the line of `reading{time: t, value: v}` is the decimal text of `t`, one comma,
the decimal text of `v` and a newline; the comma is the only one, both texts read back
to `t` and `v`, and splitting the line reads back `(t, v)`; with a log that can be
opened, written and closed, `storeReading` appends exactly the line of the current
time and of the integer it was given. -/
theorem reading_line_round_trip (t v : Int) (w : World) (ho : w.logOpen = true)
    (hw : w.logWrite = none) (hc : w.logClose = true) :
    reading.String ⟨t, v⟩ = fmtInt t ++ [44] ++ fmtInt v ++ [10]
      ∧ (reading.String ⟨t, v⟩).count 44 = 1
      ∧ parseInt (fmtInt t) = some t ∧ parseInt (fmtInt v) = some v
      ∧ parseLine (reading.String ⟨t, v⟩) = some (t, v)
      ∧ storeReading w v = (none, w.log ++ reading.String ⟨w.now, v⟩)
      ∧ parseLine (reading.String ⟨w.now, v⟩) = some (w.now, v) := by
  have key : ∀ a b : Int, parseLine (reading.String ⟨a, b⟩) = some (a, b) := by
    intro a b
    have e : reading.String ⟨a, b⟩ = (fmtInt a ++ 44 :: fmtInt b) ++ [10] := by
      simp [reading.String]
    obtain ⟨h1, h2⟩ := takeWhile_dropWhile_comma (fmtInt a) (fmtInt b) (comma_not_mem_fmtInt a)
    rw [parseLine, e, List.getLast?_concat, if_pos rfl]
    simp only [List.dropLast_concat, h1, h2, parseInt_fmtInt]
  refine ⟨rfl, ?_, parseInt_fmtInt t, parseInt_fmtInt v, key t v, storeReading_ok w v ho hw hc,
    key w.now v⟩
  have c1 := List.count_eq_zero_of_not_mem (comma_not_mem_fmtInt t)
  have c2 := List.count_eq_zero_of_not_mem (comma_not_mem_fmtInt v)
  simp [reading.String, List.count_append, c1, c2]

/-- C5 at the reading of the comment in the source, `1611012127,10125`. -/
theorem reading_line_round_trip_witness :
    reading.String ⟨1611012127, 10125⟩
        = fmtInt 1611012127 ++ [44] ++ fmtInt 10125 ++ [10]
      ∧ parseLine (reading.String ⟨1611012127, 10125⟩) = some (1611012127, 10125)
      ∧ storeReading (sampleWorld []) 10125
        = (none, (sampleWorld []).log ++ reading.String ⟨(sampleWorld []).now, 10125⟩) := by
  have h := reading_line_round_trip 1611012127 10125 (sampleWorld []) rfl rfl rfl
  exact ⟨h.1, h.2.2.2.2.1, h.2.2.2.2.2.1⟩

/-- C6: when `YES` occurs in the buffer and `t=` followed by four digits occurs nowhere
in it, the run of `main` ends with exit 0, `storeReading` is not called, the log is
unchanged and nothing is printed. -/
theorem yes_without_reading_is_a_no_op (w : World) (data : List Nat)
    (hread : readProbe w = .ok data) (hY : [89, 69, 83] <:+: data)
    (hno : ¬∃ pre d post, data = pre ++ [116, 61] ++ d ++ post ∧ d.length = 4
      ∧ ∀ c ∈ d, 48 ≤ c ∧ c ≤ 57) :
    FindSubmatch rawDataRe data = none
      ∧ main w = { exit := .ok, log := w.log, stdout := [], calls := [] } := by
  have hm : FindSubmatch rawDataRe data = none := by
    apply findSubmatch_none
    intro pre s e
    by_cases hp : [116, 61] <+: s
    · obtain ⟨r, rfl⟩ := hp
      simp only [List.cons_append, List.nil_append]
      rw [matchHere_rawDataRe_cons]
      have h4 : ¬4 ≤ digitsAhead r := by
        intro h4
        obtain ⟨a, b⟩ := digitsAhead_take 4 r h4
        exact hno ⟨pre, r.take 4, r.drop 4, by simp [e], a, b⟩
      rw [if_neg (by omega), if_neg h4]
    · exact matchHere_rawDataRe_none s hp
  have hf : Find isValid data = [89, 69, 83] := by
    rw [find_isValid, if_pos hY]
  exact ⟨hm, by rw [main_of_read w _ hread, mainOn_of_no_match w _ hf hm]; rfl⟩

/-- C6 at a probe file that ends after the line with the marker `YES`. -/
theorem yes_without_reading_is_a_no_op_witness :
    main (sampleWorld (dumpCrc ++ [89, 69, 83, 10]))
      = { exit := .ok, log := [], stdout := [], calls := [] } := by
  refine (yes_without_reading_is_a_no_op (sampleWorld (dumpCrc ++ [89, 69, 83, 10]))
    (dumpCrc ++ [89, 69, 83, 10] ++ List.replicate 60 0) (by rfl)
    ⟨dumpCrc, 10 :: List.replicate 60 0, by rfl⟩ ?_).2
  rintro ⟨pre, d, post, e, -, -⟩
  have hmem : 116 ∈ dumpCrc ++ [89, 69, 83, 10] ++ List.replicate 60 0 := by
    rw [e]
    simp
  revert hmem
  decide

/-- A run either stores nothing, and then does not end in an error of `storeReading`,
or it is decided by the one call of `storeReading`. -/
theorem main_shape (w : World) :
    (∃ e, main w = quiet w e ∧ ∀ s, e ≠ .fatal (.couldNotStore s))
      ∨ ∃ v, main w =
        match storeReading w v with
        | (some e, log') =>
          { exit := .fatal (.couldNotStore e), log := log', stdout := [], calls := [v] }
        | (none, log') =>
          { exit := .ok, log := log', stdout := [rawProbeDataToFarenheit v], calls := [v] } := by
  unfold main
  cases hr : readProbe w with
  | error e =>
    refine Or.inl ⟨.fatal e, rfl, fun s hs => ?_⟩
    have he : e = .couldNotStore s := Exit.fatal.inj hs
    subst he
    unfold readProbe at hr
    split at hr <;> simp at hr
  | ok data =>
    simp only
    unfold mainOn
    simp only
    by_cases h1 : Find isValid data = [78, 79]
    · exact Or.inl ⟨.fatal .notGood, by simp [h1, quiet], fun s hs => by simp at hs⟩
    · by_cases h2 : Find isValid data = [89, 69, 83]
      · by_cases h3 : ((FindSubmatch rawDataRe data).getD []).length = 2
        · cases hA : Atoi w.intSize (((FindSubmatch rawDataRe data).getD []).getD 1 []) with
          | none =>
            exact Or.inl ⟨.fatal .notNumber, by simp [h1, h2, h3, hA, quiet],
              fun s hs => by simp at hs⟩
          | some v => exact Or.inr ⟨v, by simp [h1, h2, h3, hA]⟩
        · exact Or.inl ⟨.ok, by simp [h1, h2, h3, quiet], fun s hs => by simp at hs⟩
      · exact Or.inl ⟨.ok, by simp [h1, h2, quiet], fun s hs => by simp at hs⟩

/-- C7 as stated fails: with the text of the comment in the source and a log whose
`Close` fails after a successful `Write`, the run ends in a fatal error and the log
has the new line all the same. -/
theorem close_failure_is_fatal_after_the_append :
    (main { sampleWorld (sensorText [89, 69, 83] [49, 48, 49, 50, 53]) with
        logClose := false }).exit = .fatal (.couldNotStore .close)
      ∧ (main { sampleWorld (sensorText [89, 69, 83] [49, 48, 49, 50, 53]) with
        logClose := false }).log
        = [49, 54, 49, 49, 48, 49, 50, 49, 50, 55, 44, 49, 48, 49, 50, 53, 10]
      ∧ (main { sampleWorld (sensorText [89, 69, 83] [49, 48, 49, 50, 53]) with
        logClose := false }).log
        ≠ ({ sampleWorld (sensorText [89, 69, 83] [49, 48, 49, 50, 53]) with
        logClose := false } : World).log := by
  refine ⟨by decide, by decide, by decide⟩

/-- C7, amended: a run of `main` that ends in a fatal error other than a failed
`Write` or `Close` of the log leaves the log unchanged; after a failed `Write` the log
is the old content followed by the bytes of the line that the `Write` got through,
and after a failed `Close` it is the old content followed by the whole line. -/
theorem fatal_run_log (w : World) (why : Fatal) (h : (main w).exit = .fatal why) :
    (why ≠ .couldNotStore .write → why ≠ .couldNotStore .close → (main w).log = w.log)
      ∧ (why = .couldNotStore .write → ∃ n v, w.logWrite = some n ∧ (main w).calls = [v]
          ∧ (main w).log = w.log ++ (reading.String ⟨w.now, v⟩).take n)
      ∧ (why = .couldNotStore .close → ∃ v, (main w).calls = [v]
          ∧ (main w).log = w.log ++ reading.String ⟨w.now, v⟩) := by
  rcases main_shape w with ⟨e, he, hne⟩ | ⟨v, hv⟩
  · rw [he] at h ⊢
    have hw : e = .fatal why := h
    refine ⟨fun _ _ => rfl, fun e' => ?_, fun e' => ?_⟩
    · exact absurd (hw.trans (congrArg Exit.fatal e')) (hne _)
    · exact absurd (hw.trans (congrArg Exit.fatal e')) (hne _)
  · rw [hv] at h ⊢
    cases ho : w.logOpen with
    | false =>
      simp only [storeReading, ho, if_true] at h ⊢
      have hw : why = .couldNotStore .open := (Exit.fatal.inj h).symm
      subst hw
      simp
    | true =>
      cases hwr : w.logWrite with
      | some n =>
        simp only [storeReading, ho, hwr] at h ⊢
        have hw : why = .couldNotStore .write := (Exit.fatal.inj h).symm
        subst hw
        simp
      | none =>
        cases hc : w.logClose with
        | false =>
          simp only [storeReading, ho, hwr, hc] at h ⊢
          have hw : why = .couldNotStore .close := (Exit.fatal.inj h).symm
          subst hw
          simp
        | true =>
          simp only [storeReading, ho, hwr, hc] at h
          exact absurd h (by simp)

/-- C7, amended, at a log that cannot be opened: the run is fatal and the log is
unchanged. -/
theorem fatal_run_log_witness :
    (main { sampleWorld (sensorText [89, 69, 83] [49, 48, 49, 50, 53]) with
        logOpen := false }).exit = .fatal (.couldNotStore .open)
      ∧ (main { sampleWorld (sensorText [89, 69, 83] [49, 48, 49, 50, 53]) with
        logOpen := false }).log = [] :=
  ⟨by decide,
    (fatal_run_log { sampleWorld (sensorText [89, 69, 83] [49, 48, 49, 50, 53]) with
      logOpen := false } (.couldNotStore .open) (by decide)).1 (by decide) (by decide)⟩

/-- C8: when `t=(\d{4,5})` matches in the buffer, the result is the match and one
group, the group is a run of four or five ASCII digits, `strconv.Atoi` converts it
without an error to a `rawNum` with `0 <= rawNum <= 99999`, and the run does not end
in the fatal error of the conversion. -/
theorem captured_digits_convert (w : World) (data : List Nat) (m : List (List Nat))
    (hread : readProbe w = .ok data) (h : FindSubmatch rawDataRe data = some m) :
    ∃ N rawNum, m = [116 :: 61 :: N, N] ∧ (N.length = 4 ∨ N.length = 5)
      ∧ (∀ c ∈ N, 48 ≤ c ∧ c ≤ 57) ∧ Atoi w.intSize N = some rawNum
      ∧ 0 ≤ rawNum ∧ rawNum ≤ 99999 ∧ (main w).exit ≠ .fatal .notNumber := by
  obtain ⟨pre, s, -, hs⟩ := findSubmatch_some _ _ _ h
  obtain ⟨N, hm, hlen, hN, -⟩ := matchHere_rawDataRe_some s m hs
  have hne : N ≠ [] := by
    intro e
    rw [e] at hlen
    simp at hlen
  obtain ⟨hA, hle⟩ := atoi_digits w.intSize N hne (by omega) hN
  refine ⟨N, (decimalValue N : Int), hm, hlen, hN, hA, Int.ofNat_nonneg _,
    by exact_mod_cast hle, ?_⟩
  rw [main_of_read w _ hread]
  by_cases hNo : Find isValid data = [78, 79]
  · simp [mainOn, hNo]
  · by_cases hY : Find isValid data = [89, 69, 83]
    · rw [mainOn_of_match w data N _ hY (hm ▸ h) hA]
      rcases storeReading w (decimalValue N : Int) with ⟨_ | e, log'⟩ <;> simp
    · rw [mainOn_of_no_marker w data hY hNo]
      simp [quiet]

/-- C8 at the text of the comment in the source. -/
theorem captured_digits_convert_witness :
    ∃ N rawNum, [[116, 61, 49, 48, 49, 50, 53], [49, 48, 49, 50, 53]] = [116 :: 61 :: N, N]
      ∧ (N.length = 4 ∨ N.length = 5) ∧ (∀ c ∈ N, 48 ≤ c ∧ c ≤ 57)
      ∧ Atoi IntSize.bits32 N = some rawNum ∧ 0 ≤ rawNum ∧ rawNum ≤ 99999
      ∧ (main (sampleWorld (sensorText [89, 69, 83] [49, 48, 49, 50, 53]))).exit
        ≠ .fatal .notNumber :=
  captured_digits_convert (sampleWorld (sensorText [89, 69, 83] [49, 48, 49, 50, 53]))
    (sensorText [89, 69, 83] [49, 48, 49, 50, 53] ++ List.replicate 25 0)
    [[116, 61, 49, 48, 49, 50, 53], [49, 48, 49, 50, 53]] (by rfl) (by decide)

/-- C9: the buffer `main` searches has 100 bytes; the search with `YES|NO$` gives `YES`
exactly when `YES` occurs somewhere in the buffer, gives `NO` exactly when `YES` occurs
nowhere and the buffer ends in `NO`, and otherwise finds nothing, and then the run ends
with exit 0, nothing stored and nothing printed. -/
theorem validity_search (w : World) (data : List Nat) (hread : readProbe w = .ok data) :
    data.length = 100
      ∧ (Find isValid data = [89, 69, 83] ↔ [89, 69, 83] <:+: data)
      ∧ (Find isValid data = [78, 79] ↔ ¬[89, 69, 83] <:+: data ∧ [78, 79] <:+ data)
      ∧ (¬[89, 69, 83] <:+: data → ¬[78, 79] <:+ data →
          Find isValid data = []
            ∧ main w = { exit := .ok, log := w.log, stdout := [], calls := [] }) := by
  refine ⟨readProbe_length w data hread, ?_, ?_, ?_⟩
  · rw [find_isValid]
    split_ifs <;> simp_all
  · rw [find_isValid]
    split_ifs <;> simp_all
  · intro hY hN
    have hf : Find isValid data = [] := by
      rw [find_isValid, if_neg hY, if_neg hN]
    refine ⟨hf, ?_⟩
    rw [main_of_read w _ hread, mainOn_of_no_marker w data (by simp [hf]) (by simp [hf])]
    rfl

/-- C9 at a probe file that holds only the line with the marker `NO` and its
newline. -/
theorem validity_search_witness :
    (dumpCrc ++ [78, 79, 10] ++ List.replicate 61 0).length = 100
      ∧ Find isValid (dumpCrc ++ [78, 79, 10] ++ List.replicate 61 0) = []
      ∧ main (sampleWorld (dumpCrc ++ [78, 79, 10]))
        = { exit := .ok, log := [], stdout := [], calls := [] } := by
  have h := validity_search (sampleWorld (dumpCrc ++ [78, 79, 10]))
    (dumpCrc ++ [78, 79, 10] ++ List.replicate 61 0) (by rfl)
  have hf : Find isValid (dumpCrc ++ [78, 79, 10] ++ List.replicate 61 0) = [] := by decide
  have hY : ¬[89, 69, 83] <:+: dumpCrc ++ [78, 79, 10] ++ List.replicate 61 0 := by
    intro hi
    have e := h.2.1.mpr hi
    rw [hf] at e
    exact absurd e (by decide)
  have hN : ¬[78, 79] <:+ dumpCrc ++ [78, 79, 10] ++ List.replicate 61 0 := by
    intro hi
    have e := h.2.2.1.mpr ⟨hY, hi⟩
    rw [hf] at e
    exact absurd e (by decide)
  exact ⟨h.1, h.2.2.2 hY hN⟩

/-- C10: when `YES` occurs in the buffer and the only `t` of the buffer is the one of
a field `t=-...`, the pattern `t=(\d{4,5})` does not match, and the run ends with
exit 0, `storeReading` is not called, the log is unchanged and nothing is printed. -/
theorem negative_field_is_not_recorded (w : World) (pre post : List Nat)
    (hread : readProbe w = .ok (pre ++ [116, 61, 45] ++ post))
    (hY : [89, 69, 83] <:+: pre ++ [116, 61, 45] ++ post)
    (hpre : 116 ∉ pre) (hpost : 116 ∉ post) :
    FindSubmatch rawDataRe (pre ++ [116, 61, 45] ++ post) = none
      ∧ main w = { exit := .ok, log := w.log, stdout := [], calls := [] } := by
  have hm : FindSubmatch rawDataRe (pre ++ [116, 61, 45] ++ post) = none := by
    have e : pre ++ [116, 61, 45] ++ post = pre ++ (116 :: 61 :: (45 :: post)) := by simp
    have h0 : matchHere rawDataRe (116 :: 61 :: (45 :: post)) = none := by
      rw [matchHere_rawDataRe_cons]
      simp [digitsAhead]
    have h1 : FindSubmatch rawDataRe ([61, 45] ++ post) = FindSubmatch rawDataRe post :=
      findSubmatch_rawDataRe_skip _ _ (by decide)
    have h2 : FindSubmatch rawDataRe (post ++ []) = FindSubmatch rawDataRe [] :=
      findSubmatch_rawDataRe_skip _ _ hpost
    have h3 : FindSubmatch rawDataRe [] = none := by
      rw [FindSubmatch]
      exact matchHere_rawDataRe_none [] (by simp)
    rw [List.append_nil] at h2
    rw [e, findSubmatch_rawDataRe_skip _ _ hpre, FindSubmatch, h0]
    exact h1.trans (h2.trans h3)
  have hf : Find isValid (pre ++ [116, 61, 45] ++ post) = [89, 69, 83] := by
    rw [find_isValid, if_pos hY]
  exact ⟨hm, by rw [main_of_read w _ hread, mainOn_of_no_match w _ hf hm]; rfl⟩

/-- C10 at the documented text with the field `t=-1062`. -/
theorem negative_field_is_not_recorded_witness :
    FindSubmatch rawDataRe (sensorText [89, 69, 83] [45, 49, 48, 54, 50]
        ++ List.replicate 25 0) = none
      ∧ main (sampleWorld (sensorText [89, 69, 83] [45, 49, 48, 54, 50]))
        = { exit := .ok, log := [], stdout := [], calls := [] } :=
  negative_field_is_not_recorded (sampleWorld (sensorText [89, 69, 83] [45, 49, 48, 54, 50]))
    (dumpCrc ++ [89, 69, 83, 10] ++ dumpLine) ([49, 48, 54, 50, 10] ++ List.replicate 25 0)
    (by rfl) ⟨dumpCrc, 10 :: dumpLine ++ [116, 61, 45, 49, 48, 54, 50, 10]
      ++ List.replicate 25 0, by rfl⟩ (by decide) (by decide)

end WaterTemp
